import Mathlib

/-!
Shallow embedding of `backend/globaleaks/handlers/admin/step.py`: admin-side
management of steps (form pages of a context), their localized content, their
field associations, and the set reconciliation `db_update_steps`.

Identifiers are modelled as naturals; fresh id allocation (UUID generation in
the source) is modelled by a monotone counter `nextId` in the store, so every
freshly allocated id is distinct from all previously allocated ones.

Functions defined in `step.py` itself are translated line by line.  Functions
the file calls but that live elsewhere in the repository (not under `src/`) —
`fill_localized_keys`, `models.Step.new`, `models.Step.update`,
`db_update_field`, `db_update_step`, and the `@transact` decorator — are
modelled from the spec, each marked `Modelled from the spec:` in its
doc comment.
-/

deriving instance DecidableEq for Except

/-- A set of localized free-text attributes of a step or field (spec §3:
"a set of free-text fields (e.g., title, description)"). -/
structure LText where
  title : String
  description : String
deriving DecidableEq

/-- A stored step record (spec §3): immutable id, owning context id, per-language
localized strings, and the ordered association list of child field ids. -/
structure Step where
  id : Nat
  context_id : Nat
  localized : List (String × LText)
  children : List Nat
deriving DecidableEq

/-- A stored field entity of the external field subsystem (referenced, not owned). -/
structure GLField where
  id : Nat
  localized : List (String × LText)
deriving DecidableEq

/-- A submitted child reference inside a step descriptor: a field id plus the
attributes forwarded to the field subsystem's update path. -/
structure FieldReq where
  id : Nat
  title : String
  description : String
deriving DecidableEq

/-- A submitted step descriptor (the validated request body `StepDesc`). -/
structure StepReq where
  id : Nat
  context_id : Nat
  title : String
  description : String
  children : List FieldReq
deriving DecidableEq

/-- The persistent store: stored steps, stored fields, and the fresh-id counter. -/
structure Store where
  steps : List Step
  fields : List GLField
  nextId : Nat
deriving DecidableEq

/-- The error kinds of `globaleaks.rest.errors` reachable from `step.py`.
`invalidInputFormat` carries the wrapped original cause, as
`errors.InvalidInputFormat(dberror)` does. -/
inductive GLError where
  | stepIdNotFound
  | fieldIdNotFound
  | invalidInputFormat (cause : GLError)
deriving DecidableEq

/-- Replace (or insert) the localized entry for one language, leaving every
other language's entry untouched. -/
def setLoc (m : List (String × LText)) (lang : String) (t : LText) : List (String × LText) :=
  (lang, t) :: m.filter (fun p => !(p.1 == lang))

/-- Look up the localized entry for one language. -/
def getLoc (m : List (String × LText)) (lang : String) : Option LText :=
  (m.find? (fun p => p.1 == lang)).map (fun p => p.2)

/-- `store.find(models.Step, models.Step.id == step_id).one()` / `models.Step.get`. -/
def getStep (s : Store) (sid : Nat) : Option Step :=
  s.steps.find? (fun st => st.id == sid)

/-- `models.GLField.get(store, fid)`. -/
def getField (s : Store) (fid : Nat) : Option GLField :=
  s.fields.find? (fun f => f.id == fid)

/-- Write back a mutated step record (Storm mutates the fetched row in place;
here the row with the given id is replaced). -/
def setStep (s : Store) (sid : Nat) (st : Step) : Store :=
  { s with steps := s.steps.map (fun x => if x.id == sid then st else x) }

/-- The ids of all stored steps. -/
def stepIds (s : Store) : List Nat :=
  s.steps.map (fun st => st.id)

/-- The ids of all stored fields. -/
def fieldIds (s : Store) : List Nat :=
  s.fields.map (fun f => f.id)

/-- The ids of the stored steps owned by one context. -/
def storedContextIds (s : Store) (cid : Nat) : List Nat :=
  (s.steps.filter (fun st => st.context_id == cid)).map (fun st => st.id)

/-- Modelled from the spec: `db_update_field` (defined in
`handlers/admin/field.py`, not under `src/`), the GLField subsystem's
`update(id, attributes, language)` (§6): fails with `FieldIdNotFound` when the
field does not exist, otherwise merges the localized attributes for the active
language (§4.1) into the stored field. -/
def db_update_field (s : Store) (fid : Nat) (req : FieldReq) (lang : String) :
    Except GLError Store :=
  match getField s fid with
  | none => .error .fieldIdNotFound
  | some _ =>
    let upd := fun (f : GLField) =>
      if f.id == fid then { f with localized := setLoc f.localized lang ⟨req.title, req.description⟩ } else f
    .ok { s with fields := s.fields.map upd }

/-- Modelled from the spec: `models.Step.new` (in `models/__init__.py`, not under
`src/`) — "allocates new id" (§4.3), stores the request's attributes with the
localized strings already filled for the active language by
`fill_localized_keys`, and records the child associations. -/
def Step.new (s : Store) (req : StepReq) (lang : String) : Step × Store :=
  let st : Step :=
    { id := s.nextId
      context_id := req.context_id
      localized := setLoc [] lang ⟨req.title, req.description⟩
      children := req.children.map (fun f => f.id) }
  (st, { s with steps := s.steps ++ [st], nextId := s.nextId + 1 })

/-- The `for f in step['children']` loop of `db_create_step`: check each child
field exists (`FieldIdNotFound` otherwise), then run `db_update_field` on it. -/
def createChildren (s : Store) (lang : String) : List FieldReq → Except GLError Store
  | [] => .ok s
  | f :: rest =>
    match getField s f.id with
    | none => .error .fieldIdNotFound
    | some _ =>
      match db_update_field s f.id f lang with
      | .error e => .error e
      | .ok s₁ => createChildren s₁ lang rest

/-- `db_create_step(store, step, language)`: fill localized keys, create the
step record, then process the children. -/
def db_create_step (s : Store) (req : StepReq) (lang : String) :
    Except GLError (Step × Store) :=
  let ns := Step.new s req lang
  match createChildren ns.2 lang req.children with
  | .error e => .error e
  | .ok s₂ => .ok (ns.1, s₂)

/-- Modelled from the spec: the `@transact` decorator (in `settings.py`, not
under `src/`) — one atomic unit of work: commit the mutated store on success,
roll back to the initial store on any failure (§5). -/
def runTransaction (body : Store → Except GLError (α × Store)) (s : Store) :
    Except GLError α × Store :=
  match body s with
  | .ok (a, s₁) => (.ok a, s₁)
  | .error e => (.error e, s)

/-- `create_step`: the transaction performing `db_create_step` (the serialized
view it returns is modelled by the step record itself). -/
def create_step (s : Store) (req : StepReq) (lang : String) :
    Except GLError Step × Store :=
  runTransaction (fun s₀ => db_create_step s₀ req lang) s

/-- Modelled from the spec: `models.Step.update(request)` (in
`models/__init__.py`, not under `src/`) — merges the localized strings for the
active language onto the existing record, preserving other languages (§4.1,
§4.3), sets the plain attributes (including `context_id`) and rewrites the
child associations from the request. -/
def Step.updateFromReq (st : Step) (req : StepReq) (lang : String) : Step :=
  { st with
      context_id := req.context_id
      localized := setLoc st.localized lang ⟨req.title, req.description⟩
      children := req.children.map (fun f => f.id) }

/-- The `for child in request['children']` loop of `update_step`: run
`db_update_field` on each submitted child. -/
def updateChildren (s : Store) (lang : String) : List FieldReq → Except GLError Store
  | [] => .ok s
  | f :: rest =>
    match db_update_field s f.id f lang with
    | .error e => .error e
    | .ok s₁ => updateChildren s₁ lang rest

/-- The `try:` block of `update_step`: the step was fetched before the block;
inside, a missing step raises `StepIdNotFound`, otherwise localized keys are
filled, the step is updated, and each child is reprocessed. -/
def updateStepTry (s : Store) (sid : Nat) (req : StepReq) (lang : String) :
    Except GLError (Step × Store) :=
  match getStep s sid with
  | none => .error .stepIdNotFound
  | some st =>
    let st₁ := st.updateFromReq req lang
    let s₁ := setStep s sid st₁
    match updateChildren s₁ lang req.children with
    | .error e => .error e
    | .ok s₂ => .ok (st₁, s₂)

/-- The body of `update_step` run inside the transaction: every exception
raised in the `try:` block is caught by `except Exception` and re-raised as
`InvalidInputFormat` wrapping the original error. -/
def updateStepDb (s : Store) (sid : Nat) (req : StepReq) (lang : String) :
    Except GLError (Step × Store) :=
  match updateStepTry s sid req lang with
  | .error e => .error (.invalidInputFormat e)
  | .ok r => .ok r

/-- `update_step(step_id, request, language)`: the transaction around
`updateStepDb`. -/
def update_step (s : Store) (sid : Nat) (req : StepReq) (lang : String) :
    Except GLError Step × Store :=
  runTransaction (fun s₀ => updateStepDb s₀ sid req lang) s

/-- `db_delete_step` body of `delete_step`: fetch, raise `StepIdNotFound` when
absent, otherwise `step.delete(store)` — which removes the step record and its
child associations but no GLField entity. -/
def dbDeleteStep (s : Store) (sid : Nat) : Except GLError (Unit × Store) :=
  match getStep s sid with
  | none => .error .stepIdNotFound
  | some _ => .ok ((), { s with steps := s.steps.filter (fun st => !(st.id == sid)) })

/-- `delete_step(step_id)`: the transaction around the deletion. -/
def delete_step (s : Store) (sid : Nat) : Except GLError Unit × Store :=
  runTransaction (fun s₀ => dbDeleteStep s₀ sid) s

/-- Modelled from the spec: `db_update_step` (called by `db_update_steps` but
defined outside `src/`) — the "update-or-create-by-id" primitive of §4.4,
keyed on the submitted step's own id: the update path follows §4.3 `update`
(failures re-signaled as `InvalidInputFormat`), the create path follows §4.3
`create`; it returns the resulting step id. -/
def db_update_step (s : Store) (sid : Nat) (req : StepReq) (lang : String) :
    Except GLError (Nat × Store) :=
  match getStep s sid with
  | some _ =>
    match updateStepDb s sid req lang with
    | .error e => .error e
    | .ok (st, s₁) => .ok (st.id, s₁)
  | none =>
    match db_create_step s req lang with
    | .error e => .error e
    | .ok (st, s₁) => .ok (st.id, s₁)

/-- The `for step in steps` loop of `db_update_steps`: stamp
`step['context_id'] = context_id`, upsert, and collect the resulting ids. -/
def upsertSteps (s : Store) (cid : Nat) (lang : String) :
    List StepReq → Except GLError (List Nat × Store)
  | [] => .ok ([], s)
  | r :: rest =>
    match db_update_step s r.id { r with context_id := cid } lang with
    | .error e => .error e
    | .ok (i, s₁) =>
      match upsertSteps s₁ cid lang rest with
      | .error e => .error e
      | .ok (ids, s₂) => .ok (i :: ids, s₂)

/-- The final `store.find(...).remove()` of `db_update_steps`: delete every
stored step of the context whose id was not collected. -/
def pruneSteps (s : Store) (cid : Nat) (ids : List Nat) : Store :=
  { s with steps := s.steps.filter (fun st => !(st.context_id == cid && !(decide (st.id ∈ ids)))) }

/-- `db_update_steps(store, context_id, steps, language)`: upsert every
submitted step, then prune the context's stored steps down to the collected
ids. -/
def db_update_steps (s : Store) (cid : Nat) (steps : List StepReq) (lang : String) :
    Except GLError Store :=
  match upsertSteps s cid lang steps with
  | .error e => .error e
  | .ok (ids, s₁) => .ok (pruneSteps s₁ cid ids)

/-- Modelled from the spec: the enclosing read-write transaction around the
reconciler (§4.5, §5); `db_update_steps` is a `db_` helper called by the
context handlers (outside `src/`) inside one atomic transaction, so a failure
rolls the store back. -/
def update_steps (s : Store) (cid : Nat) (steps : List StepReq) (lang : String) :
    Except GLError Unit × Store :=
  match db_update_steps s cid steps lang with
  | .ok s₁ => (.ok (), s₁)
  | .error e => (.error e, s)

/-! ### Basic predicates over the store -/

/-- Some stored step has the given id. -/
def hasStepId (s : Store) (i : Nat) : Prop :=
  ∃ st, st ∈ s.steps ∧ st.id = i

/-- Some stored step has the given id and belongs to the given context. -/
def hasStepCtx (s : Store) (i cid : Nat) : Prop :=
  ∃ st, st ∈ s.steps ∧ st.id = i ∧ st.context_id = cid

instance (s : Store) (i : Nat) : Decidable (hasStepId s i) :=
  decidable_of_iff (∃ st, st ∈ s.steps ∧ st.id = i) Iff.rfl

instance (s : Store) (i cid : Nat) : Decidable (hasStepCtx s i cid) :=
  decidable_of_iff (∃ st, st ∈ s.steps ∧ st.id = i ∧ st.context_id = cid) Iff.rfl

/-! ### Concrete stores and requests used to instantiate the theorems -/

/-- An empty store. -/
def c1store : Store := { steps := [], fields := [], nextId := 0 }

/-- A submitted step whose id matches no stored step. -/
def c1req : StepReq :=
  { id := 5, context_id := 7, title := "t", description := "d", children := [] }

/-- The store produced by reconciling `c1store` with `[c1req]` for context 0. -/
def c1res : Store :=
  { steps := [{ id := 0, context_id := 0,
                localized := [("en", { title := "t", description := "d" })], children := [] }]
    fields := [], nextId := 1 }

/-- An empty store. -/
def c2store : Store := { steps := [], fields := [], nextId := 0 }

/-- A well-formed step descriptor. -/
def c2req : StepReq :=
  { id := 1, context_id := 0, title := "t", description := "d", children := [] }

/-- A store holding one field with id 10 and no steps. -/
def c3store : Store :=
  { steps := [], fields := [{ id := 10, localized := [] }], nextId := 0 }

/-- A step descriptor referencing the non-existent field 99. -/
def c3req : StepReq :=
  { id := 1, context_id := 0, title := "t", description := "d",
    children := [{ id := 99, title := "a", description := "b" }] }

/-- The stored step carrying French localized content. -/
def c4st : Step :=
  { id := 1, context_id := 0,
    localized := [("fr", { title := "a", description := "b" })], children := [] }

/-- A store holding `c4st`. -/
def c4store : Store := { steps := [c4st], fields := [], nextId := 2 }

/-- An English update for step 1. -/
def c4req : StepReq :=
  { id := 1, context_id := 0, title := "t", description := "d", children := [] }

/-- The step record after updating `c4st` with `c4req` under language `en`. -/
def c4res : Step :=
  { id := 1, context_id := 0,
    localized := [("en", { title := "t", description := "d" }),
                  ("fr", { title := "a", description := "b" })]
    children := [] }

/-- The store after the `c4req` update. -/
def c4fin : Store := { steps := [c4res], fields := [], nextId := 2 }

/-- A store holding one step with id 1 and no fields. -/
def c6store : Store :=
  { steps := [{ id := 1, context_id := 0, localized := [], children := [] }]
    fields := [], nextId := 2 }

/-- An update for step 1 referencing the non-existent field 99. -/
def c6req : StepReq :=
  { id := 1, context_id := 0, title := "t", description := "d",
    children := [{ id := 99, title := "a", description := "b" }] }

/-- An empty store. -/
def c7store : Store := { steps := [], fields := [], nextId := 0 }

/-- A submitted step whose id 5 matches no stored step, so each run creates. -/
def c7req : StepReq :=
  { id := 5, context_id := 7, title := "t", description := "d", children := [] }

/-- The store after the first reconciliation of `c7store` with `[c7req]`. -/
def c7run1 : Store :=
  { steps := [{ id := 0, context_id := 0,
                localized := [("en", { title := "t", description := "d" })], children := [] }]
    fields := [], nextId := 1 }

/-- The store after the second reconciliation: the step was re-created under a
fresh id and the first run's step was pruned. -/
def c7run2 : Store :=
  { steps := [{ id := 1, context_id := 0,
                localized := [("en", { title := "t", description := "d" })], children := [] }]
    fields := [], nextId := 2 }

/-- A store whose only step already carries the submitted id 1. -/
def c7wstore : Store :=
  { steps := [{ id := 1, context_id := 0, localized := [], children := [] }]
    fields := [], nextId := 2 }

/-- A pure-update submission for the stored step 1. -/
def c7wreq : StepReq :=
  { id := 1, context_id := 9, title := "t", description := "d", children := [] }

/-- The fixed point reached by reconciling `c7wstore` with `[c7wreq]`. -/
def c7wres : Store :=
  { steps := [{ id := 1, context_id := 0,
                localized := [("en", { title := "t", description := "d" })], children := [] }]
    fields := [], nextId := 2 }

/-- The stored step deleted in the delete example. -/
def c8st : Step := { id := 1, context_id := 0, localized := [], children := [] }

/-- A store holding `c8st` and one field. -/
def c8store : Store :=
  { steps := [c8st], fields := [{ id := 10, localized := [] }], nextId := 2 }

/-! ### Localization lemmas -/

theorem find?_filter_of_imp (p q : α → Bool) (l : List α)
    (h : ∀ x, p x = true → q x = true) : (l.filter q).find? p = l.find? p := by
  induction l with
  | nil => rfl
  | cons a l ih =>
    by_cases hq : q a = true
    · by_cases hp : p a = true
      · simp [List.filter_cons, hq, List.find?_cons, hp]
      · simp only [Bool.not_eq_true] at hp
        simp [List.filter_cons, hq, List.find?_cons, hp, ih]
    · have hp : p a = false := by
        by_contra hc
        simp only [Bool.not_eq_false] at hc
        exact hq (h a hc)
      simp only [Bool.not_eq_true] at hq
      simp [List.filter_cons, hq, List.find?_cons, hp, ih]

theorem getLoc_setLoc_ne (m : List (String × LText)) (lang lang' : String) (t : LText)
    (h : lang' ≠ lang) : getLoc (setLoc m lang t) lang' = getLoc m lang' := by
  unfold getLoc setLoc
  have hhead : ((lang, t).1 == lang') = false := by
    simp only [beq_eq_false_iff_ne, ne_eq]
    exact fun hc => h hc.symm
  rw [List.find?_cons, hhead]
  rw [find?_filter_of_imp]
  intro x hx
  simp only [beq_iff_eq] at hx
  simp [hx, h]

/-! ### Lookup lemmas -/

theorem getStep_isSome_iff (s : Store) (sid : Nat) :
    (∃ st, getStep s sid = some st) ↔ hasStepId s sid := by
  unfold getStep hasStepId
  constructor
  · rintro ⟨st, h⟩
    refine ⟨st, List.mem_of_find?_eq_some h, ?_⟩
    have := List.find?_some h
    simpa using this
  · rintro ⟨st, hmem, hid⟩
    have hs : (s.steps.find? (fun st => st.id == sid)).isSome = true := by
      rw [List.find?_isSome]
      exact ⟨st, hmem, by simp [hid]⟩
    obtain ⟨a, ha⟩ := Option.isSome_iff_exists.1 hs
    exact ⟨a, ha⟩

theorem getStep_none_iff (s : Store) (sid : Nat) :
    getStep s sid = none ↔ ¬ hasStepId s sid := by
  constructor
  · intro h hc
    obtain ⟨st, hfind⟩ := (getStep_isSome_iff s sid).2 hc
    rw [h] at hfind
    exact Option.noConfusion hfind
  · intro h
    cases hg : getStep s sid with
    | none => rfl
    | some st => exact absurd ((getStep_isSome_iff s sid).1 ⟨st, hg⟩) h

theorem getStep_some_id (s : Store) (sid : Nat) (st : Step)
    (h : getStep s sid = some st) : st ∈ s.steps ∧ st.id = sid := by
  refine ⟨List.mem_of_find?_eq_some h, ?_⟩
  have := List.find?_some h
  simpa using this

theorem mem_fieldIds_iff (s : Store) (fid : Nat) :
    fid ∈ fieldIds s ↔ ∃ f, f ∈ s.fields ∧ f.id = fid := by
  unfold fieldIds
  simp [List.mem_map, eq_comm]

theorem getField_isSome_iff (s : Store) (fid : Nat) :
    (∃ f, getField s fid = some f) ↔ fid ∈ fieldIds s := by
  rw [mem_fieldIds_iff]
  unfold getField
  constructor
  · rintro ⟨f, h⟩
    refine ⟨f, List.mem_of_find?_eq_some h, ?_⟩
    have := List.find?_some h
    simpa using this
  · rintro ⟨f, hmem, hid⟩
    have hs : (s.fields.find? (fun f => f.id == fid)).isSome = true := by
      rw [List.find?_isSome]
      exact ⟨f, hmem, by simp [hid]⟩
    obtain ⟨a, ha⟩ := Option.isSome_iff_exists.1 hs
    exact ⟨a, ha⟩

theorem getField_none_iff (s : Store) (fid : Nat) :
    getField s fid = none ↔ fid ∉ fieldIds s := by
  constructor
  · intro h hc
    obtain ⟨f, hfind⟩ := (getField_isSome_iff s fid).2 hc
    rw [h] at hfind
    exact Option.noConfusion hfind
  · intro h
    cases hg : getField s fid with
    | none => rfl
    | some f => exact absurd ((getField_isSome_iff s fid).1 ⟨f, hg⟩) h

/-! ### `db_update_field` lemmas -/

theorem db_update_field_ok_frame (s : Store) (fid : Nat) (req : FieldReq) (lang : String)
    (s₁ : Store) (h : db_update_field s fid req lang = .ok s₁) :
    s₁.steps = s.steps ∧ s₁.nextId = s.nextId ∧ fieldIds s₁ = fieldIds s := by
  unfold db_update_field at h
  cases hg : getField s fid with
  | none => rw [hg] at h; exact absurd h (by simp)
  | some f =>
    rw [hg] at h
    simp only [Except.ok.injEq] at h
    subst h
    refine ⟨rfl, rfl, ?_⟩
    unfold fieldIds
    rw [List.map_map]
    refine List.map_congr_left ?_
    intro f hf
    simp only [Function.comp_apply]
    split <;> rfl

theorem db_update_field_ok_of_present (s : Store) (fid : Nat) (req : FieldReq) (lang : String)
    (h : fid ∈ fieldIds s) : ∃ s₁, db_update_field s fid req lang = .ok s₁ := by
  obtain ⟨f, hf⟩ := (getField_isSome_iff s fid).2 h
  unfold db_update_field
  rw [hf]
  exact ⟨_, rfl⟩

theorem db_update_field_error_elim (s : Store) (fid : Nat) (req : FieldReq) (lang : String)
    (e : GLError) (h : db_update_field s fid req lang = .error e) :
    e = .fieldIdNotFound ∧ fid ∉ fieldIds s := by
  unfold db_update_field at h
  cases hg : getField s fid with
  | none =>
    rw [hg] at h
    simp only [Except.error.injEq] at h
    exact ⟨h.symm, (getField_none_iff s fid).1 hg⟩
  | some f => rw [hg] at h; exact absurd h (by simp)

theorem db_update_field_ok_mem (s : Store) (fid : Nat) (req : FieldReq) (lang : String)
    (s₁ : Store) (h : db_update_field s fid req lang = .ok s₁) : fid ∈ fieldIds s := by
  unfold db_update_field at h
  cases hg : getField s fid with
  | none => rw [hg] at h; exact absurd h (by simp)
  | some f => exact (getField_isSome_iff s fid).1 ⟨f, hg⟩

/-! ### Children-loop lemmas -/

theorem createChildren_eq_updateChildren (lang : String) :
    ∀ (cs : List FieldReq) (s : Store), createChildren s lang cs = updateChildren s lang cs := by
  intro cs
  induction cs with
  | nil => intro s; rfl
  | cons f rest ih =>
    intro s
    rw [createChildren, updateChildren]
    cases hg : getField s f.id with
    | none =>
      have he : db_update_field s f.id f lang = .error .fieldIdNotFound := by
        unfold db_update_field
        rw [hg]
      rw [he]
    | some fl =>
      obtain ⟨s₁, hs₁⟩ := db_update_field_ok_of_present s f.id f lang
        ((getField_isSome_iff s f.id).1 ⟨fl, hg⟩)
      rw [hs₁]
      exact ih s₁

theorem updateChildren_ok_frame (lang : String) :
    ∀ (cs : List FieldReq) (s s₁ : Store), updateChildren s lang cs = .ok s₁ →
      s₁.steps = s.steps ∧ s₁.nextId = s.nextId ∧ fieldIds s₁ = fieldIds s := by
  intro cs
  induction cs with
  | nil =>
    intro s s₁ h
    rw [updateChildren] at h
    simp only [Except.ok.injEq] at h
    subst h
    exact ⟨rfl, rfl, rfl⟩
  | cons f rest ih =>
    intro s s₁ h
    rw [updateChildren] at h
    cases hu : db_update_field s f.id f lang with
    | error e => rw [hu] at h; exact absurd h (by simp)
    | ok s₂ =>
      rw [hu] at h
      obtain ⟨h1, h2, h3⟩ := ih s₂ s₁ h
      obtain ⟨g1, g2, g3⟩ := db_update_field_ok_frame s f.id f lang s₂ hu
      exact ⟨h1.trans g1, h2.trans g2, h3.trans g3⟩

theorem updateChildren_error_shape (lang : String) :
    ∀ (cs : List FieldReq) (s : Store) (e : GLError),
      updateChildren s lang cs = .error e → e = .fieldIdNotFound := by
  intro cs
  induction cs with
  | nil => intro s e h; rw [updateChildren] at h; exact absurd h (by simp)
  | cons f rest ih =>
    intro s e h
    rw [updateChildren] at h
    cases hu : db_update_field s f.id f lang with
    | error e' =>
      rw [hu] at h
      simp only [Except.error.injEq] at h
      subst h
      exact (db_update_field_error_elim s f.id f lang _ hu).1
    | ok s₂ => rw [hu] at h; exact ih s₂ e h

theorem updateChildren_ok_mem (lang : String) :
    ∀ (cs : List FieldReq) (s s₁ : Store), updateChildren s lang cs = .ok s₁ →
      ∀ f ∈ cs, f.id ∈ fieldIds s := by
  intro cs
  induction cs with
  | nil => intro s s₁ _ f hf; exact absurd hf (List.not_mem_nil f)
  | cons g rest ih =>
    intro s s₁ h f hf
    rw [updateChildren] at h
    cases hu : db_update_field s g.id g lang with
    | error e => rw [hu] at h; exact absurd h (by simp)
    | ok s₂ =>
      rw [hu] at h
      rcases List.mem_cons.1 hf with hf | hf
      · subst hf
        exact db_update_field_ok_mem s f.id f lang s₂ hu
      · have := ih s₂ s₁ h f hf
        rwa [(db_update_field_ok_frame s g.id g lang s₂ hu).2.2] at this

theorem updateChildren_ok_of_present (lang : String) :
    ∀ (cs : List FieldReq) (s : Store), (∀ f ∈ cs, f.id ∈ fieldIds s) →
      ∃ s₁, updateChildren s lang cs = .ok s₁ := by
  intro cs
  induction cs with
  | nil => intro s _; exact ⟨s, rfl⟩
  | cons f rest ih =>
    intro s hall
    obtain ⟨s₂, hs₂⟩ := db_update_field_ok_of_present s f.id f lang (hall f (by simp))
    have hrest : ∀ g ∈ rest, g.id ∈ fieldIds s₂ := by
      intro g hg
      rw [(db_update_field_ok_frame s f.id f lang s₂ hs₂).2.2]
      exact hall g (List.mem_cons_of_mem f hg)
    obtain ⟨s₁, hs₁⟩ := ih s₂ hrest
    refine ⟨s₁, ?_⟩
    rw [updateChildren, hs₂]
    exact hs₁

theorem updateChildren_error_of_missing (lang : String) :
    ∀ (cs : List FieldReq) (s : Store), (∃ f ∈ cs, f.id ∉ fieldIds s) →
      updateChildren s lang cs = .error .fieldIdNotFound := by
  intro cs
  induction cs with
  | nil => rintro s ⟨f, hf, _⟩; exact absurd hf (List.not_mem_nil f)
  | cons g rest ih =>
    rintro s ⟨f, hf, hmiss⟩
    rw [updateChildren]
    cases hu : db_update_field s g.id g lang with
    | error e =>
      have := (db_update_field_error_elim s g.id g lang e hu).1
      subst this
      rfl
    | ok s₂ =>
      rcases List.mem_cons.1 hf with hf | hf
      · subst hf
        exact absurd (db_update_field_ok_mem s f.id f lang s₂ hu) hmiss
      · refine ih s₂ ⟨f, hf, ?_⟩
        rwa [(db_update_field_ok_frame s g.id g lang s₂ hu).2.2]

/-! ### `db_create_step` lemmas -/

theorem db_create_step_ok_elim (s : Store) (req : StepReq) (lang : String) (st : Step)
    (s₁ : Store) (h : db_create_step s req lang = .ok (st, s₁)) :
    st = (Step.new s req lang).1
    ∧ s₁.steps = s.steps ++ [(Step.new s req lang).1]
    ∧ s₁.nextId = s.nextId + 1
    ∧ fieldIds s₁ = fieldIds s
    ∧ (∀ f ∈ req.children, f.id ∈ fieldIds s) := by
  simp only [db_create_step] at h
  rw [createChildren_eq_updateChildren] at h
  cases hu : updateChildren (Step.new s req lang).2 lang req.children with
  | error e => rw [hu] at h; exact absurd h (by simp)
  | ok s₂ =>
    rw [hu] at h
    simp only [Except.ok.injEq, Prod.mk.injEq] at h
    obtain ⟨hst, hs⟩ := h
    subst hst
    subst hs
    obtain ⟨h1, h2, h3⟩ := updateChildren_ok_frame lang req.children (Step.new s req lang).2 _ hu
    exact ⟨rfl, h1, h2, h3, updateChildren_ok_mem lang req.children (Step.new s req lang).2 _ hu⟩

theorem db_create_step_error_elim (s : Store) (req : StepReq) (lang : String) (e : GLError)
    (h : db_create_step s req lang = .error e) : e = .fieldIdNotFound := by
  simp only [db_create_step] at h
  rw [createChildren_eq_updateChildren] at h
  cases hu : updateChildren (Step.new s req lang).2 lang req.children with
  | error e' =>
    rw [hu] at h
    simp only [Except.error.injEq] at h
    subst h
    exact updateChildren_error_shape lang req.children _ _ hu
  | ok s₂ => rw [hu] at h; exact absurd h (by simp)

/-! ### `setStep` lemmas -/

theorem hasStepCtx_of_steps_eq (s₁ s₂ : Store) (i c : Nat) (h : s₁.steps = s₂.steps)
    (hc : hasStepCtx s₂ i c) : hasStepCtx s₁ i c := by
  unfold hasStepCtx at hc ⊢
  rw [h]
  exact hc

theorem hasStepId_of_steps_eq (s₁ s₂ : Store) (i : Nat) (h : s₁.steps = s₂.steps)
    (hc : hasStepId s₂ i) : hasStepId s₁ i := by
  unfold hasStepId at hc ⊢
  rw [h]
  exact hc

theorem hasStepCtx_setStep_self (s : Store) (sid : Nat) (st st₁ : Step)
    (hget : getStep s sid = some st) :
    hasStepCtx (setStep s sid st₁) st₁.id st₁.context_id := by
  obtain ⟨hmem, hsid⟩ := getStep_some_id s sid st hget
  refine ⟨st₁, ?_, rfl, rfl⟩
  unfold setStep
  simp only [List.mem_map]
  exact ⟨st, hmem, by simp [hsid]⟩

theorem hasStepCtx_setStep_preserve (s : Store) (sid : Nat) (st₁ : Step) (i c : Nat)
    (hctx : st₁.context_id = c) (hid : st₁.id = sid)
    (h : hasStepCtx s i c) : hasStepCtx (setStep s sid st₁) i c := by
  obtain ⟨x, hx, hxi, hxc⟩ := h
  unfold hasStepCtx setStep
  by_cases hcase : (x.id == sid) = true
  · have hsi : sid = i := by
      simp only [beq_iff_eq] at hcase
      rw [← hcase, hxi]
    refine ⟨st₁, ?_, by rw [hid, hsi], hctx⟩
    simp only [List.mem_map]
    exact ⟨x, hx, by simp [hcase]⟩
  · refine ⟨x, ?_, hxi, hxc⟩
    simp only [List.mem_map]
    refine ⟨x, hx, ?_⟩
    simp only [Bool.not_eq_true] at hcase
    simp [hcase]

theorem hasStepId_setStep_preserve (s : Store) (sid : Nat) (st₁ : Step) (i : Nat)
    (hid : st₁.id = sid) (h : hasStepId s i) : hasStepId (setStep s sid st₁) i := by
  obtain ⟨x, hx, hxi⟩ := h
  unfold hasStepId setStep
  by_cases hcase : (x.id == sid) = true
  · have hsi : sid = i := by
      simp only [beq_iff_eq] at hcase
      rw [← hcase, hxi]
    refine ⟨st₁, ?_, by rw [hid, hsi]⟩
    simp only [List.mem_map]
    exact ⟨x, hx, by simp [hcase]⟩
  · refine ⟨x, ?_, hxi⟩
    simp only [List.mem_map]
    refine ⟨x, hx, ?_⟩
    simp only [Bool.not_eq_true] at hcase
    simp [hcase]

/-! ### `updateStepTry` and `updateStepDb` lemmas -/

theorem updateStepTry_none (s : Store) (sid : Nat) (req : StepReq) (lang : String)
    (hget : getStep s sid = none) :
    updateStepTry s sid req lang = .error .stepIdNotFound := by
  unfold updateStepTry
  rw [hget]

theorem updateStepTry_ok_elim (s : Store) (sid : Nat) (req : StepReq) (lang : String)
    (st res : Step) (s₁ : Store) (hget : getStep s sid = some st)
    (h : updateStepTry s sid req lang = .ok (res, s₁)) :
    res = st.updateFromReq req lang
    ∧ s₁.steps = (setStep s sid (st.updateFromReq req lang)).steps
    ∧ s₁.nextId = s.nextId
    ∧ fieldIds s₁ = fieldIds s
    ∧ (∀ f ∈ req.children, f.id ∈ fieldIds s) := by
  unfold updateStepTry at h
  rw [hget] at h
  simp only at h
  cases hu : updateChildren (setStep s sid (st.updateFromReq req lang)) lang req.children with
  | error e => rw [hu] at h; exact absurd h (by simp)
  | ok s₂ =>
    rw [hu] at h
    simp only [Except.ok.injEq, Prod.mk.injEq] at h
    obtain ⟨hres, hs⟩ := h
    subst hres
    subst hs
    obtain ⟨h1, h2, h3⟩ :=
      updateChildren_ok_frame lang req.children (setStep s sid (st.updateFromReq req lang)) _ hu
    exact ⟨rfl, h1, h2, h3,
      updateChildren_ok_mem lang req.children (setStep s sid (st.updateFromReq req lang)) _ hu⟩

theorem updateStepTry_ok_of (s : Store) (sid : Nat) (req : StepReq) (lang : String)
    (st : Step) (hget : getStep s sid = some st)
    (hch : ∀ f ∈ req.children, f.id ∈ fieldIds s) :
    ∃ s₁, updateStepTry s sid req lang = .ok (st.updateFromReq req lang, s₁) := by
  obtain ⟨s₁, hs₁⟩ :=
    updateChildren_ok_of_present lang req.children (setStep s sid (st.updateFromReq req lang)) hch
  refine ⟨s₁, ?_⟩
  unfold updateStepTry
  rw [hget]
  simp only
  rw [hs₁]

theorem updateStepDb_ok_iff (s : Store) (sid : Nat) (req : StepReq) (lang : String)
    (r : Step × Store) :
    updateStepDb s sid req lang = .ok r ↔ updateStepTry s sid req lang = .ok r := by
  unfold updateStepDb
  cases h : updateStepTry s sid req lang with
  | error e => simp
  | ok r' => simp

theorem updateStepDb_error_elim (s : Store) (sid : Nat) (req : StepReq) (lang : String)
    (e : GLError) (h : updateStepDb s sid req lang = .error e) :
    ∃ c, e = .invalidInputFormat c ∧ updateStepTry s sid req lang = .error c := by
  unfold updateStepDb at h
  cases ht : updateStepTry s sid req lang with
  | error c =>
    rw [ht] at h
    simp only [Except.error.injEq] at h
    exact ⟨c, h.symm, rfl⟩
  | ok r => rw [ht] at h; exact absurd h (by simp)

/-! ### `db_update_step` lemmas -/

theorem db_update_step_ok_elim (s : Store) (sid : Nat) (req : StepReq) (lang : String)
    (i : Nat) (s₁ : Store) (h : db_update_step s sid req lang = .ok (i, s₁)) :
    hasStepCtx s₁ i req.context_id
    ∧ fieldIds s₁ = fieldIds s
    ∧ (∀ f ∈ req.children, f.id ∈ fieldIds s)
    ∧ (∀ j, hasStepCtx s j req.context_id → hasStepCtx s₁ j req.context_id)
    ∧ (∀ j, hasStepId s j → hasStepId s₁ j)
    ∧ (hasStepId s sid → i = sid) := by
  unfold db_update_step at h
  cases hget : getStep s sid with
  | some st =>
    rw [hget] at h
    cases hdb : updateStepDb s sid req lang with
    | error e => rw [hdb] at h; exact absurd h (by simp)
    | ok r =>
      rw [hdb] at h
      obtain ⟨st₁, s₂⟩ := r
      simp only [Except.ok.injEq, Prod.mk.injEq] at h
      obtain ⟨hi, hs⟩ := h
      obtain ⟨hres, hsteps, hnext, hfields, hch⟩ :=
        updateStepTry_ok_elim s sid req lang st st₁ s₂
          hget ((updateStepDb_ok_iff s sid req lang _).1 hdb)
      subst hres
      subst hs
      subst hi
      have hstid : st.id = sid := (getStep_some_id s sid st hget).2
      refine ⟨?_, hfields, hch, ?_, ?_, fun _ => ?_⟩
      · have hself := hasStepCtx_setStep_self s sid st (st.updateFromReq req lang) hget
        exact hasStepCtx_of_steps_eq _ _ _ _ hsteps hself
      · intro j hj
        refine hasStepCtx_of_steps_eq _ _ _ _ hsteps ?_
        exact hasStepCtx_setStep_preserve s sid (st.updateFromReq req lang) j req.context_id rfl
          (by simpa [Step.updateFromReq] using hstid) hj
      · intro j hj
        refine hasStepId_of_steps_eq _ _ _ hsteps ?_
        exact hasStepId_setStep_preserve s sid (st.updateFromReq req lang) j
          (by simpa [Step.updateFromReq] using hstid) hj
      · simpa [Step.updateFromReq] using hstid
  | none =>
    rw [hget] at h
    cases hdb : db_create_step s req lang with
    | error e => rw [hdb] at h; exact absurd h (by simp)
    | ok r =>
      rw [hdb] at h
      obtain ⟨st₁, s₂⟩ := r
      simp only [Except.ok.injEq, Prod.mk.injEq] at h
      obtain ⟨hi, hs⟩ := h
      obtain ⟨hst, hsteps, hnext, hfields, hch⟩ := db_create_step_ok_elim s req lang st₁ s₂ hdb
      subst hs
      subst hi
      refine ⟨?_, hfields, hch, ?_, ?_, fun hc => ?_⟩
      · refine ⟨(Step.new s req lang).1, ?_, ?_, rfl⟩
        · rw [hsteps]
          exact List.mem_append_right _ (by simp)
        · rw [hst]
      · rintro j ⟨x, hx, hxi, hxc⟩
        exact ⟨x, by rw [hsteps]; exact List.mem_append_left _ hx, hxi, hxc⟩
      · rintro j ⟨x, hx, hxi⟩
        exact ⟨x, by rw [hsteps]; exact List.mem_append_left _ hx, hxi⟩
      · exact absurd hc ((getStep_none_iff s sid).1 hget)

theorem db_update_step_ok_of (s : Store) (sid : Nat) (req : StepReq) (lang : String)
    (hid : hasStepId s sid) (hch : ∀ f ∈ req.children, f.id ∈ fieldIds s) :
    ∃ s₁, db_update_step s sid req lang = .ok (sid, s₁) := by
  obtain ⟨st, hget⟩ := (getStep_isSome_iff s sid).2 hid
  obtain ⟨s₁, htry⟩ := updateStepTry_ok_of s sid req lang st hget hch
  refine ⟨s₁, ?_⟩
  unfold db_update_step
  rw [hget]
  have hdb : updateStepDb s sid req lang = .ok (st.updateFromReq req lang, s₁) :=
    (updateStepDb_ok_iff s sid req lang _).2 htry
  rw [hdb]
  have hstid : st.id = sid := (getStep_some_id s sid st hget).2
  simp [Step.updateFromReq, hstid]

theorem db_update_step_error_shape (s : Store) (sid : Nat) (req : StepReq) (lang : String)
    (e : GLError) (h : db_update_step s sid req lang = .error e) :
    e = .fieldIdNotFound ∨ ∃ c, e = .invalidInputFormat c := by
  unfold db_update_step at h
  cases hget : getStep s sid with
  | some st =>
    rw [hget] at h
    cases hdb : updateStepDb s sid req lang with
    | error e' =>
      rw [hdb] at h
      simp only [Except.error.injEq] at h
      subst h
      obtain ⟨c, hc, _⟩ := updateStepDb_error_elim s sid req lang _ hdb
      exact Or.inr ⟨c, hc⟩
    | ok r => rw [hdb] at h; exact absurd h (by simp)
  | none =>
    rw [hget] at h
    cases hdb : db_create_step s req lang with
    | error e' =>
      rw [hdb] at h
      simp only [Except.error.injEq] at h
      subst h
      exact Or.inl (db_create_step_error_elim s req lang _ hdb)
    | ok r => rw [hdb] at h; exact absurd h (by simp)

/-! ### `upsertSteps` lemmas -/

theorem upsertSteps_elim (cid : Nat) (lang : String) :
    ∀ (steps : List StepReq) (s : Store) (ids : List Nat) (s₁ : Store),
      upsertSteps s cid lang steps = .ok (ids, s₁) →
      (∀ i ∈ ids, hasStepCtx s₁ i cid)
      ∧ fieldIds s₁ = fieldIds s
      ∧ (∀ r ∈ steps, ∀ f ∈ r.children, f.id ∈ fieldIds s)
      ∧ (∀ j, hasStepCtx s j cid → hasStepCtx s₁ j cid)
      ∧ (∀ j, hasStepId s j → hasStepId s₁ j)
      ∧ (∀ r ∈ steps, hasStepId s r.id → r.id ∈ ids) := by
  intro steps
  induction steps with
  | nil =>
    intro s ids s₁ h
    rw [upsertSteps] at h
    simp only [Except.ok.injEq, Prod.mk.injEq] at h
    obtain ⟨hids, hs⟩ := h
    subst hids
    subst hs
    exact ⟨by simp, rfl, by simp, fun j hj => hj, fun j hj => hj, by simp⟩
  | cons r rest ih =>
    intro s ids s₁ h
    rw [upsertSteps] at h
    cases hu : db_update_step s r.id { r with context_id := cid } lang with
    | error e => rw [hu] at h; exact absurd h (by simp)
    | ok p =>
      rw [hu] at h
      obtain ⟨i, s₂⟩ := p
      simp only at h
      cases hr : upsertSteps s₂ cid lang rest with
      | error e => rw [hr] at h; exact absurd h (by simp)
      | ok q =>
        rw [hr] at h
        obtain ⟨ids', s₃⟩ := q
        simp only [Except.ok.injEq, Prod.mk.injEq] at h
        obtain ⟨hids, hs⟩ := h
        subst hs
        subst hids
        obtain ⟨hctx, hfields, hch, hpresCtx, hpresId, hkeep⟩ := db_update_step_ok_elim
          s r.id { r with context_id := cid } lang i s₂ hu
        obtain ⟨ihctx, ihfields, ihch, ihpresCtx, ihpresId, ihkeep⟩ := ih _ _ _ hr
        refine ⟨?_, ihfields.trans hfields, ?_, ?_, ?_, ?_⟩
        · intro j hj
          rcases List.mem_cons.1 hj with hj | hj
          · subst hj
            exact ihpresCtx j hctx
          · exact ihctx j hj
        · intro r' hr' f hf
          rcases List.mem_cons.1 hr' with hr' | hr'
          · subst hr'
            exact hch f hf
          · rw [← hfields]
            exact ihch r' hr' f hf
        · intro j hj
          exact ihpresCtx j (hpresCtx j hj)
        · intro j hj
          exact ihpresId j (hpresId j hj)
        · intro r' hr' hid
          rcases List.mem_cons.1 hr' with hr' | hr'
          · subst hr'
            exact List.mem_cons.2 (Or.inl (hkeep hid).symm)
          · exact List.mem_cons_of_mem i (ihkeep r' hr' (hpresId r'.id hid))

theorem upsertSteps_error_shape (cid : Nat) (lang : String) :
    ∀ (steps : List StepReq) (s : Store) (e : GLError),
      upsertSteps s cid lang steps = .error e →
      e = .fieldIdNotFound ∨ ∃ c, e = .invalidInputFormat c := by
  intro steps
  induction steps with
  | nil => intro s e h; rw [upsertSteps] at h; exact absurd h (by simp)
  | cons r rest ih =>
    intro s e h
    rw [upsertSteps] at h
    cases hu : db_update_step s r.id { r with context_id := cid } lang with
    | error e' =>
      rw [hu] at h
      simp only [Except.error.injEq] at h
      subst h
      exact db_update_step_error_shape s r.id _ lang _ hu
    | ok p =>
      rw [hu] at h
      obtain ⟨i, s₂⟩ := p
      simp only at h
      cases hr : upsertSteps s₂ cid lang rest with
      | error e' =>
        rw [hr] at h
        simp only [Except.error.injEq] at h
        subst h
        exact ih s₂ _ hr
      | ok q =>
        rw [hr] at h
        obtain ⟨ids', s₃⟩ := q
        exact absurd h (by simp)

theorem upsertSteps_ok_of (cid : Nat) (lang : String) :
    ∀ (steps : List StepReq) (s : Store),
      (∀ r ∈ steps, hasStepId s r.id) →
      (∀ r ∈ steps, ∀ f ∈ r.children, f.id ∈ fieldIds s) →
      ∃ s₁, upsertSteps s cid lang steps = .ok (steps.map (fun r => r.id), s₁) := by
  intro steps
  induction steps with
  | nil => intro s _ _; exact ⟨s, rfl⟩
  | cons r rest ih =>
    intro s hid hch
    obtain ⟨s₂, hs₂⟩ := db_update_step_ok_of s r.id { r with context_id := cid } lang
      (hid r (List.mem_cons_self r rest)) (hch r (List.mem_cons_self r rest))
    obtain ⟨hctx2, hfields2, hch2, hpresCtx2, hpresId2, hkeep2⟩ :=
      db_update_step_ok_elim s r.id { r with context_id := cid } lang r.id s₂ hs₂
    have hidrest : ∀ r' ∈ rest, hasStepId s₂ r'.id := fun r' hr' =>
      hpresId2 _ (hid r' (List.mem_cons_of_mem r hr'))
    have hchrest : ∀ r' ∈ rest, ∀ f ∈ r'.children, f.id ∈ fieldIds s₂ := by
      intro r' hr' f hf
      rw [hfields2]
      exact hch r' (List.mem_cons_of_mem r hr') f hf
    obtain ⟨s₃, hs₃⟩ := ih s₂ hidrest hchrest
    refine ⟨s₃, ?_⟩
    rw [upsertSteps, hs₂]
    simp only
    rw [hs₃]
    simp

/-! ### Prune and reconciliation lemmas -/

theorem hasStepId_of_hasStepCtx (s : Store) (i c : Nat) (h : hasStepCtx s i c) :
    hasStepId s i := by
  obtain ⟨st, hmem, hid, _⟩ := h
  exact ⟨st, hmem, hid⟩

theorem mem_storedContextIds (s : Store) (cid i : Nat) :
    i ∈ storedContextIds s cid ↔ hasStepCtx s i cid := by
  unfold storedContextIds hasStepCtx
  simp only [List.mem_map, List.mem_filter, beq_iff_eq]
  constructor
  · rintro ⟨st, ⟨hmem, hctx⟩, hid⟩
    exact ⟨st, hmem, hid, hctx⟩
  · rintro ⟨st, hmem, hid, hctx⟩
    exact ⟨st, ⟨hmem, hctx⟩, hid⟩

theorem hasStepCtx_pruneSteps (s : Store) (cid : Nat) (ids : List Nat) (i : Nat) :
    hasStepCtx (pruneSteps s cid ids) i cid ↔ hasStepCtx s i cid ∧ i ∈ ids := by
  unfold hasStepCtx pruneSteps
  constructor
  · rintro ⟨st, hmem, hid, hctx⟩
    simp only [List.mem_filter] at hmem
    obtain ⟨hmem, hp⟩ := hmem
    simp only [hctx, beq_self_eq_true, Bool.true_and, Bool.not_not,
      decide_eq_true_eq] at hp
    exact ⟨⟨st, hmem, hid, hctx⟩, hid ▸ hp⟩
  · rintro ⟨⟨st, hmem, hid, hctx⟩, hin⟩
    refine ⟨st, ?_, hid, hctx⟩
    simp only [List.mem_filter]
    refine ⟨hmem, ?_⟩
    simp [hctx, hid, hin]

theorem pruneSteps_fields (s : Store) (cid : Nat) (ids : List Nat) :
    (pruneSteps s cid ids).fields = s.fields := rfl

theorem reconcile_ids (s : Store) (cid : Nat) (lang : String) (steps : List StepReq)
    (ids : List Nat) (s₁ : Store) (h : upsertSteps s cid lang steps = .ok (ids, s₁)) :
    ∀ i, i ∈ storedContextIds (pruneSteps s₁ cid ids) cid ↔ i ∈ ids := by
  intro i
  rw [mem_storedContextIds, hasStepCtx_pruneSteps]
  constructor
  · rintro ⟨_, hin⟩
    exact hin
  · intro hin
    exact ⟨(upsertSteps_elim cid lang steps s ids s₁ h).1 i hin, hin⟩

theorem db_update_steps_of_upsert_ok (s : Store) (cid : Nat) (steps : List StepReq)
    (lang : String) (ids : List Nat) (s₁ : Store)
    (h : upsertSteps s cid lang steps = .ok (ids, s₁)) :
    db_update_steps s cid steps lang = .ok (pruneSteps s₁ cid ids) := by
  unfold db_update_steps
  rw [h]

theorem db_update_steps_of_upsert_error (s : Store) (cid : Nat) (steps : List StepReq)
    (lang : String) (e : GLError) (h : upsertSteps s cid lang steps = .error e) :
    db_update_steps s cid steps lang = .error e := by
  unfold db_update_steps
  rw [h]

theorem db_update_steps_ok_elim (s : Store) (cid : Nat) (steps : List StepReq)
    (lang : String) (s' : Store) (h : db_update_steps s cid steps lang = .ok s') :
    ∃ ids s₁, upsertSteps s cid lang steps = .ok (ids, s₁) ∧ s' = pruneSteps s₁ cid ids := by
  unfold db_update_steps at h
  cases hu : upsertSteps s cid lang steps with
  | error e => rw [hu] at h; exact absurd h (by simp)
  | ok p =>
    rw [hu] at h
    obtain ⟨ids, s₁⟩ := p
    simp only [Except.ok.injEq] at h
    exact ⟨ids, s₁, rfl, h.symm⟩

/-! ### `runTransaction` lemmas -/

theorem runTransaction_of_ok (body : Store → Except GLError (α × Store)) (s : Store)
    (a : α) (s' : Store) (hb : body s = .ok (a, s')) :
    runTransaction body s = (.ok a, s') := by
  unfold runTransaction
  rw [hb]

theorem runTransaction_of_error (body : Store → Except GLError (α × Store)) (s : Store)
    (e : GLError) (hb : body s = .error e) :
    runTransaction body s = (.error e, s) := by
  unfold runTransaction
  rw [hb]

theorem runTransaction_ok_elim (body : Store → Except GLError (α × Store)) (s : Store)
    (a : α) (s' : Store) (h : runTransaction body s = (.ok a, s')) :
    body s = .ok (a, s') := by
  unfold runTransaction at h
  cases hb : body s with
  | ok p =>
    obtain ⟨a', s''⟩ := p
    rw [hb] at h
    simp only [Prod.mk.injEq, Except.ok.injEq] at h
    rw [h.1, h.2]
  | error e =>
    rw [hb] at h
    simp only [Prod.mk.injEq] at h
    exact absurd h.1 (by simp)

/-! ### `getStep` after `setStep` -/

theorem find?_map_replace (sid : Nat) (st₁ : Step) (hid : st₁.id = sid) :
    ∀ (l : List Step) (st : Step), l.find? (fun x => x.id == sid) = some st →
      (l.map (fun x => if x.id == sid then st₁ else x)).find? (fun x => x.id == sid)
        = some st₁ := by
  intro l
  induction l with
  | nil => intro st h; simp [List.find?] at h
  | cons a l ih =>
    intro st h
    by_cases ha : (a.id == sid) = true
    · simp only [List.map_cons, List.find?_cons, ha, if_true]
      have : (st₁.id == sid) = true := by simp [hid]
      simp [this]
    · simp only [Bool.not_eq_true] at ha
      rw [List.find?_cons, ha] at h
      simp only [List.map_cons, ha, Bool.false_eq_true, if_false, List.find?_cons, ha]
      exact ih st h

theorem getStep_eq_of_steps_eq (s₁ s₂ : Store) (sid : Nat) (h : s₁.steps = s₂.steps) :
    getStep s₁ sid = getStep s₂ sid := by
  unfold getStep
  rw [h]

theorem getStep_setStep_self (s : Store) (sid : Nat) (st st₁ : Step)
    (hget : getStep s sid = some st) (hid : st₁.id = sid) :
    getStep (setStep s sid st₁) sid = some st₁ := by
  unfold getStep setStep at *
  exact find?_map_replace sid st₁ hid s.steps st hget

/-! ### Claim theorems -/

/-- C1: after `db_update_steps(contextId, steps, language)` completes
successfully, the set of stored step ids with `context_id = contextId` is
exactly the set of ids collected by upserting each submitted step (a step with
an existing id keeps it, a step with an unmatched id gets the freshly created
step's id); no stored step of the context is missing from or left over beyond
that set, in any submission order. -/
theorem reconciliation_exact_id_set (s : Store) (cid : Nat) (steps : List StepReq)
    (lang : String) (s' : Store) (h : db_update_steps s cid steps lang = .ok s') :
    ∃ ids s₁, upsertSteps s cid lang steps = .ok (ids, s₁)
      ∧ s' = pruneSteps s₁ cid ids
      ∧ (∀ i, i ∈ storedContextIds s' cid ↔ i ∈ ids)
      ∧ (∀ r ∈ steps, hasStepId s r.id → r.id ∈ ids) := by
  obtain ⟨ids, s₁, hu, hs⟩ := db_update_steps_ok_elim s cid steps lang s' h
  subst hs
  exact ⟨ids, s₁, hu, rfl, reconcile_ids s cid lang steps ids s₁ hu,
    (upsertSteps_elim cid lang steps s ids s₁ hu).2.2.2.2.2⟩

/-- Witness for C1 at a concrete input: reconciling the empty store with one
submitted step for context 0. -/
theorem reconciliation_exact_id_set_witness :
    ∃ ids s₁, upsertSteps c1store 0 "en" [c1req] = .ok (ids, s₁)
      ∧ c1res = pruneSteps s₁ 0 ids
      ∧ (∀ i, i ∈ storedContextIds c1res 0 ↔ i ∈ ids)
      ∧ (∀ r ∈ [c1req], hasStepId c1store r.id → r.id ∈ ids) :=
  reconciliation_exact_id_set c1store 0 [c1req] "en" c1res (by decide)

/-- C2 (code defect): `update_step` on an id with no stored step does not let
`StepIdNotFound` propagate unmodified: the raise sits inside the `try` block
whose `except Exception` handler re-raises everything as `InvalidInputFormat`,
so the caller observes `InvalidInputFormat` wrapping `StepIdNotFound`. -/
theorem update_step_missing_id_remapped :
    update_step c2store 1 c2req "en"
      = (.error (.invalidInputFormat .stepIdNotFound), c2store) := by decide

/-- C3: creating a step whose `children` list contains an id that resolves to
no existing field fails with `FieldIdNotFound` and persists no new step: the
transaction rolls the store back to its pre-call state. -/
theorem create_step_atomic_missing_child (s : Store) (req : StepReq) (lang : String)
    (h : ∃ f ∈ req.children, f.id ∉ fieldIds s) :
    create_step s req lang = (.error .fieldIdNotFound, s) := by
  have hmiss : ∃ f ∈ req.children, f.id ∉ fieldIds (Step.new s req lang).2 := h
  have hcc : createChildren (Step.new s req lang).2 lang req.children
      = .error .fieldIdNotFound := by
    rw [createChildren_eq_updateChildren]
    exact updateChildren_error_of_missing lang req.children (Step.new s req lang).2 hmiss
  have hdb : db_create_step s req lang = .error .fieldIdNotFound := by
    unfold db_create_step
    simp only
    rw [hcc]
  unfold create_step
  exact runTransaction_of_error _ s _ hdb

/-- Witness for C3 at a concrete input: the submitted step references field 99,
which does not exist in a store holding only field 10. -/
theorem create_step_atomic_missing_child_witness :
    create_step c3store c3req "en" = (.error .fieldIdNotFound, c3store) :=
  create_step_atomic_missing_child c3store c3req "en" (by decide)

/-- C4: a successful `update_step` under language `lang` only replaces the
localized entry for `lang`: the returned step and the stored step keep, for
every other language, exactly the localized entry the step had before. -/
theorem update_step_preserves_other_languages (s : Store) (sid : Nat) (req : StepReq)
    (lang lang' : String) (st res : Step) (s' : Store)
    (hget : getStep s sid = some st) (hne : lang' ≠ lang)
    (h : update_step s sid req lang = (.ok res, s')) :
    getLoc res.localized lang' = getLoc st.localized lang'
    ∧ getStep s' sid = some res
    ∧ res = st.updateFromReq req lang := by
  have hdb : updateStepDb s sid req lang = .ok (res, s') := by
    have := runTransaction_ok_elim (fun s₀ => updateStepDb s₀ sid req lang) s res s' h
    exact this
  have htry : updateStepTry s sid req lang = .ok (res, s') :=
    (updateStepDb_ok_iff s sid req lang _).1 hdb
  obtain ⟨hres, hsteps, _, _, _⟩ := updateStepTry_ok_elim s sid req lang st res s' hget htry
  have hstid : st.id = sid := (getStep_some_id s sid st hget).2
  refine ⟨?_, ?_, hres⟩
  · rw [hres]
    simp only [Step.updateFromReq]
    exact getLoc_setLoc_ne st.localized lang lang' ⟨req.title, req.description⟩ hne
  · rw [getStep_eq_of_steps_eq s' (setStep s sid (st.updateFromReq req lang)) sid hsteps]
    rw [hres]
    exact getStep_setStep_self s sid st (st.updateFromReq req lang) hget
      (by simpa [Step.updateFromReq] using hstid)

/-- Witness for C4 at a concrete input: updating step 1 under `en` leaves its
`fr` entry untouched. -/
theorem update_step_preserves_other_languages_witness :
    getLoc c4res.localized "fr" = getLoc c4st.localized "fr"
    ∧ getStep c4fin 1 = some c4res
    ∧ c4res = c4st.updateFromReq c4req "en" :=
  update_step_preserves_other_languages c4store 1 c4req "en" "fr" c4st c4res c4fin
    (by decide) (by decide) (by decide)

/-- C5: reconciling a context with an empty submitted list succeeds, deletes
every stored step of that context, and deletes nothing else: the surviving
steps are exactly the steps of the other contexts, and no field is touched. -/
theorem reconcile_empty_teardown (s : Store) (cid : Nat) (lang : String) :
    ∃ s', db_update_steps s cid [] lang = .ok s'
      ∧ storedContextIds s' cid = []
      ∧ (∀ st : Step, st ∈ s'.steps ↔ st ∈ s.steps ∧ st.context_id ≠ cid)
      ∧ s'.fields = s.fields := by
  refine ⟨pruneSteps s cid [],
    db_update_steps_of_upsert_ok s cid [] lang [] s rfl, ?_, ?_, rfl⟩
  · rw [List.eq_nil_iff_forall_not_mem]
    intro i hi
    rw [mem_storedContextIds, hasStepCtx_pruneSteps] at hi
    exact absurd hi.2 (List.not_mem_nil i)
  · intro st
    unfold pruneSteps
    simp only [List.mem_filter, List.not_mem_nil, decide_False, Bool.not_false,
      Bool.and_true, Bool.not_eq_true', beq_eq_false_iff_ne, ne_eq]

/-- C6: if any individual step's upsert inside the reconciliation fails, the
whole reconciliation fails with that step's own error kind (`FieldIdNotFound`
or `InvalidInputFormat`) and the enclosing transaction commits nothing: the
store is rolled back to its pre-call state. -/
theorem reconcile_atomic_on_failure (s : Store) (cid : Nat) (steps : List StepReq)
    (lang : String) (e : GLError) (h : upsertSteps s cid lang steps = .error e) :
    update_steps s cid steps lang = (.error e, s)
    ∧ (e = .fieldIdNotFound ∨ ∃ c, e = .invalidInputFormat c) := by
  refine ⟨?_, upsertSteps_error_shape cid lang steps s e h⟩
  unfold update_steps
  rw [db_update_steps_of_upsert_error s cid steps lang e h]

/-- Witness for C6 at a concrete input: the single submitted step's update
references the non-existent field 99, so the whole reconciliation fails with
`InvalidInputFormat` wrapping `FieldIdNotFound` and the store is unchanged. -/
theorem reconcile_atomic_on_failure_witness :
    update_steps c6store 0 [c6req] "en"
        = (.error (.invalidInputFormat .fieldIdNotFound), c6store)
    ∧ ((.invalidInputFormat .fieldIdNotFound : GLError) = .fieldIdNotFound
        ∨ ∃ c, (.invalidInputFormat .fieldIdNotFound : GLError) = .invalidInputFormat c) :=
  reconcile_atomic_on_failure c6store 0 [c6req] "en"
    (.invalidInputFormat .fieldIdNotFound) (by decide)

/-- C7 (counterexample): reconciliation is not idempotent when a submitted step
has to be created. Starting from the empty store, reconciling context 0 with a
step whose id 5 matches nothing creates it under the fresh id 0; running the
same call again on the result creates it anew under fresh id 1 and prunes the
step from the first run, so the stored sets of the two runs differ. -/
theorem reconcile_not_idempotent_on_creates :
    db_update_steps c7store 0 [c7req] "en" = .ok c7run1
    ∧ db_update_steps c7run1 0 [c7req] "en" = .ok c7run2
    ∧ storedContextIds c7run1 0 = [0]
    ∧ storedContextIds c7run2 0 = [1]
    ∧ c7run2.steps ≠ c7run1.steps := by decide

/-- C7 (amended): reconciliation is idempotent on pure-update submissions —
when every submitted step's id matches a stored step, a second run right after
a successful first run succeeds and leaves the stored step-id set of the
context exactly as the first run left it. (A submitted step whose id matches
no stored step is re-created under a fresh id by each run, so in that case the
second run replaces it, as the counterexample shows.) -/
theorem reconcile_idempotent_on_updates (s : Store) (cid : Nat) (steps : List StepReq)
    (lang : String) (s₁ : Store)
    (hids : ∀ r ∈ steps, hasStepId s r.id)
    (h1 : db_update_steps s cid steps lang = .ok s₁) :
    ∃ s₂, db_update_steps s₁ cid steps lang = .ok s₂
      ∧ (∀ i, i ∈ storedContextIds s₂ cid ↔ i ∈ storedContextIds s₁ cid) := by
  obtain ⟨ids, t₁, hu, hsp⟩ := db_update_steps_ok_elim s cid steps lang s₁ h1
  obtain ⟨hctxAll, hfieldsEq, hchAll, hpc, hpi, hk⟩ := upsertSteps_elim cid lang steps s ids t₁ hu
  obtain ⟨u₁, hu'⟩ := upsertSteps_ok_of cid lang steps s hids hchAll
  rw [hu] at hu'
  simp only [Except.ok.injEq, Prod.mk.injEq] at hu'
  obtain ⟨hids_eq, ht_eq⟩ := hu'
  subst hsp
  have hfieldIds : fieldIds (pruneSteps t₁ cid ids) = fieldIds s := by
    have hpf : fieldIds (pruneSteps t₁ cid ids) = fieldIds t₁ := rfl
    rw [hpf, hfieldsEq]
  have hids1 : ∀ r ∈ steps, hasStepId (pruneSteps t₁ cid ids) r.id := by
    intro r hr
    have hmem : r.id ∈ ids := by
      rw [hids_eq]
      exact List.mem_map_of_mem _ hr
    exact hasStepId_of_hasStepCtx _ _ _
      ((hasStepCtx_pruneSteps t₁ cid ids r.id).2 ⟨hctxAll r.id hmem, hmem⟩)
  have hch1 : ∀ r ∈ steps, ∀ f ∈ r.children, f.id ∈ fieldIds (pruneSteps t₁ cid ids) := by
    intro r hr f hf
    rw [hfieldIds]
    exact hchAll r hr f hf
  obtain ⟨u₂, hu₂⟩ := upsertSteps_ok_of cid lang steps (pruneSteps t₁ cid ids) hids1 hch1
  refine ⟨pruneSteps u₂ cid (steps.map (fun r => r.id)),
    db_update_steps_of_upsert_ok _ cid steps lang _ u₂ hu₂, ?_⟩
  intro i
  rw [reconcile_ids _ cid lang steps _ u₂ hu₂ i,
    reconcile_ids s cid lang steps ids t₁ hu i, hids_eq]

/-- Witness for the amended C7 at a concrete input: a pure-update submission
for the stored step 1 reaches a fixed point. -/
theorem reconcile_idempotent_on_updates_witness :
    ∃ s₂, db_update_steps c7wres 0 [c7wreq] "en" = .ok s₂
      ∧ (∀ i, i ∈ storedContextIds s₂ 0 ↔ i ∈ storedContextIds c7wres 0) :=
  reconcile_idempotent_on_updates c7wstore 0 [c7wreq] "en" c7wres
    (by decide) (by decide)

/-- C8: deleting a non-existent step id fails with `StepIdNotFound` and leaves
the store untouched; deleting an existing id removes exactly that step record
— and with it the step's child associations, which live on the record — while
deleting no field entity. -/
theorem delete_step_missing_and_existing (s : Store) (sid : Nat) :
    (getStep s sid = none → delete_step s sid = (.error .stepIdNotFound, s))
    ∧ (∀ st, getStep s sid = some st →
        ∃ s', delete_step s sid = (.ok (), s')
          ∧ s'.fields = s.fields
          ∧ s'.nextId = s.nextId
          ∧ (∀ x : Step, x ∈ s'.steps ↔ x ∈ s.steps ∧ x.id ≠ sid)) := by
  constructor
  · intro hget
    have hdb : dbDeleteStep s sid = .error .stepIdNotFound := by
      unfold dbDeleteStep
      rw [hget]
    unfold delete_step
    exact runTransaction_of_error _ s _ hdb
  · intro st hget
    have hdb : dbDeleteStep s sid
        = .ok ((), { s with steps := s.steps.filter (fun x => !(x.id == sid)) }) := by
      unfold dbDeleteStep
      rw [hget]
    refine ⟨{ s with steps := s.steps.filter (fun x => !(x.id == sid)) }, ?_, rfl, rfl, ?_⟩
    · unfold delete_step
      exact runTransaction_of_ok _ s _ _ hdb
    · intro x
      simp [List.mem_filter]

/-- Witness for C8 at concrete inputs: deleting the missing id 99 fails and
leaves the store as it was; deleting the stored id 1 removes exactly it. -/
theorem delete_step_missing_and_existing_witness :
    delete_step c8store 99 = (.error .stepIdNotFound, c8store)
    ∧ ∃ s', delete_step c8store 1 = (.ok (), s')
        ∧ s'.fields = c8store.fields
        ∧ s'.nextId = c8store.nextId
        ∧ (∀ x : Step, x ∈ s'.steps ↔ x ∈ c8store.steps ∧ x.id ≠ 1) :=
  ⟨(delete_step_missing_and_existing c8store 99).1 (by decide),
   (delete_step_missing_and_existing c8store 1).2 c8st (by decide)⟩

/-- C9: `db_update_steps` overwrites every submitted step's `context_id` with
the call's context before the upsert, so client-supplied `context_id` values
are irrelevant: rewriting them all to an arbitrary value changes nothing about
the reconciliation's outcome. -/
theorem reconcile_context_not_spoofable (s : Store) (cid x : Nat)
    (steps : List StepReq) (lang : String) :
    db_update_steps s cid (steps.map (fun r => { r with context_id := x })) lang
      = db_update_steps s cid steps lang := by
  have hup : ∀ (l : List StepReq) (t : Store),
      upsertSteps t cid lang (l.map (fun r => { r with context_id := x }))
        = upsertSteps t cid lang l := by
    intro l
    induction l with
    | nil => intro t; rfl
    | cons r rest ih =>
      intro t
      have hhead : db_update_step t ({ r with context_id := x } : StepReq).id
            { { r with context_id := x } with context_id := cid } lang
          = db_update_step t r.id { r with context_id := cid } lang := rfl
      rw [List.map_cons, upsertSteps, upsertSteps, hhead]
      cases hdb : db_update_step t r.id { r with context_id := cid } lang with
      | error e => rfl
      | ok p =>
        obtain ⟨i, s₁⟩ := p
        simp only
        rw [ih s₁]
  unfold db_update_steps
  rw [hup steps s]

/-- C10: whatever happens inside `update_step`'s `try` block — the missing-id
`StepIdNotFound`, a child-processing `FieldIdNotFound`, any fault — is caught
by `except Exception` and re-signaled as `InvalidInputFormat` wrapping the
cause, so the call either succeeds or fails with `InvalidInputFormat` (and the
transaction leaves the store untouched on failure). -/
theorem update_step_normalizes_faults (s : Store) (sid : Nat) (req : StepReq)
    (lang : String) :
    (∃ st s', update_step s sid req lang = (.ok st, s'))
    ∨ (∃ c, update_step s sid req lang = (.error (.invalidInputFormat c), s)) := by
  unfold update_step
  cases ht : updateStepTry s sid req lang with
  | ok p =>
    obtain ⟨st, s'⟩ := p
    exact Or.inl ⟨st, s', runTransaction_of_ok _ s st s'
      ((updateStepDb_ok_iff s sid req lang _).2 ht)⟩
  | error c =>
    refine Or.inr ⟨c, runTransaction_of_error _ s _ ?_⟩
    unfold updateStepDb
    rw [ht]
